import Mathlib

/-!
Verification development for a C ordered-set container implemented as a B-tree
(`src/set.c`, `src/set.h`).

The embedding is a shallow one, faithful to the source at the level of bytes
and heap nodes:

* An element is an opaque byte block (`List Nat`, one entry per byte);
  `elem_size` is its byte stride, and the comparator `less` acts on the
  byte blocks of two elements.
* The key storage of a node (`data` in the source) is a flat byte buffer
  allocated as `calloc(order - 1, elem_size)`, modelled as a
  `List Nat` of length `(order - 1) * elem_size` initialised to zeroes.
  `memcpy` / `memmove` become bounds-checked byte-range operations;
  an access outside the allocation yields `none` (undefined behaviour).
* Nodes live in a heap (`Store := List BNode`), a node pointer is a
  `Option Nat` index into the heap (`none` is the NULL pointer), and
  dereferencing NULL or a dangling id yields `none`.
* C locals that are read before initialisation are modelled as `Option`
  values starting at `none`; reading them yields `none` (undefined
  behaviour), exactly where the source reads an indeterminate value.
* All recursive procedures take fuel; `none` is also returned on fuel
  exhaustion, which concrete evaluations avoid by supplying ample fuel.

One deliberate idealisation, noted where used: the source allocates the
child-pointer array of a node as `calloc(order, elem_size)` — sized by the element
stride rather than by the pointer size.  Pointer-object layout is outside
this embedding, so the child array is modelled as `order` pointer slots
(its intended capacity), all NULL after `calloc`.  None of the results below
depends on the child array being smaller than that.
-/

namespace TreeOfLife

/-- A heap node (`struct set_node`).  `data` is the raw key byte buffer,
`parentId` the (nullable) parent pointer, `children` the child-pointer array
(`none` models a NULL `children`, i.e. a leaf), `nKeys` the key count. -/
structure BNode where
  data : List Nat
  parentId : Option Nat
  children : Option (List (Option Nat))
  nKeys : Nat
deriving DecidableEq, Repr

/-- The heap: node ids are list indices, allocation appends. -/
abbrev Store := List BNode

/-- The `set` structure: element stride, Knuth order, nullable root pointer.
The comparator is passed to the operations as a function argument. -/
structure SetS where
  elemSize : Nat
  order : Nat
  root : Option Nat
deriving DecidableEq, Repr

/-- Read `len` bytes at byte offset `off`; `none` when the range leaves the
allocation (an out-of-bounds read is undefined behaviour). -/
def readBytes (buf : List Nat) (off len : Nat) : Option (List Nat) :=
  if off + len ≤ buf.length then some ((buf.drop off).take len) else none

/-- Write the byte block `bs` at byte offset `off`; `none` when the range
leaves the allocation (an out-of-bounds write is undefined behaviour). -/
def writeBytes (buf : List Nat) (off : Nat) (bs : List Nat) : Option (List Nat) :=
  if off + bs.length ≤ buf.length then
    some (buf.take off ++ bs ++ buf.drop (off + bs.length))
  else none

/-- `memmove` within one buffer: read the source range, then write it at the
destination (the buffered-copy semantics of `memmove`). -/
def memmoveBytes (buf : List Nat) (dst src len : Nat) : Option (List Nat) :=
  (readBytes buf src len).bind (writeBytes buf dst)

/-- `calloc(1, sizeof(set_node))`: a zeroed node (NULL data, NULL parent,
NULL children, 0 keys) appended to the heap; returns the heap and the new id. -/
def calloc_node (st : Store) : Store × Nat :=
  (st ++ [⟨[], none, none, 0⟩], st.length)

/-- `set_node_init`: sets `parent` and `n_keys`, allocates the zeroed
`data` buffer of `(order - 1) * elem_size` bytes, and for a non-leaf
allocates the child array with all slots NULL (see the header note on the
child-array allocation size in the source). -/
def set_node_init (st : Store) (id : Nat) (order elemSize : Nat)
    (parent : Option Nat) (nKeys : Nat) (isLeaf : Bool) : Store :=
  st.set id
    { data := List.replicate ((order - 1) * elemSize) 0
      parentId := parent
      children := if isLeaf then none else some (List.replicate order none)
      nKeys := nKeys }

/-- `set_init`: an empty set (NULL root). -/
def set_init (order elemSize : Nat) : SetS :=
  { elemSize := elemSize, order := order, root := none }

/-! ### Teardown (`set_tree_free`, `set_free`)

`set_tree_free` recurses into `node->children[child]` for
`child = 0 .. n_keys` and then frees `node->data`.  The source never checks
whether the node is a leaf, so on a leaf it indexes through the NULL
`children` pointer.  The embedding returns the post-order sequence of node
ids whose data buffer is freed, or `none` on undefined behaviour. -/

mutual

def set_tree_free (fuel : Nat) (st : Store) (id : Option Nat) :
    Option (List Nat) :=
  match fuel with
  | 0 => none
  | fuel + 1 => do
    let nid ← id
    let node ← st.get? nid
    let freed ← set_tree_free_loop fuel st node.children 0 (node.nKeys + 1)
    some (freed ++ [nid])
termination_by structural fuel

def set_tree_free_loop (fuel : Nat) (st : Store)
    (children : Option (List (Option Nat))) (i remaining : Nat) :
    Option (List Nat) :=
  match fuel with
  | 0 => none
  | fuel + 1 =>
    match remaining with
    | 0 => some []
    | remaining + 1 => do
      let cs ← children
      let slot ← cs.get? i
      let freed ← set_tree_free fuel st slot
      let rest ← set_tree_free_loop fuel st children (i + 1) remaining
      some (freed ++ rest)
termination_by structural fuel

end

/-- `set_free`: frees the tree rooted at `s->root` (with no NULL check on
the root pointer). -/
def set_free (fuel : Nat) (st : Store) (s : SetS) : Option (List Nat) :=
  set_tree_free fuel st s.root

/-! ### Membership (`set_tree_contains`, `set_contains`)

The source declares two locals:

```
size_t elem_index; // point where elem would go in data
void *stored;      // pointer to stored data at elem_index
```

and then runs `for(size_t elem_index = 0; ...)` — the loop variable
*shadows* the outer `elem_index`, which therefore stays uninitialised; and
the loop tests `less(stored, elem)` before ever assigning `stored`.  Both
locals are modelled as `Option` values starting at `none`; reading them is
undefined behaviour (`none`). -/

/-- The scan loop of `set_tree_contains`: at index `i` with `remaining`
iterations left, test `less(*stored, elem)` (undefined while `stored` is
uninitialised); on success store the address `i * elemSize` and break.
Returns the final value of `stored`. -/
def containsScan (less : List Nat → List Nat → Bool) (data : List Nat)
    (elemSize : Nat) (elem : List Nat) :
    Nat → Nat → Option Nat → Option (Option Nat)
  | _, 0, stored => some stored
  | i, remaining + 1, stored => do
    let sOff ← stored
    let sVal ← readBytes data sOff elemSize
    if less sVal elem then some (some (i * elemSize))
    else containsScan less data elemSize elem (i + 1) remaining stored

/-- `set_tree_contains`.  The result is the returned boolean paired with the
bytes written through `copy_out` (`none` = `copy_out` untouched); the whole
result is `none` on undefined behaviour. -/
def set_tree_contains (fuel : Nat) (st : Store) (id : Option Nat)
    (elem : List Nat) (elemSize : Nat) (copyOut : Bool)
    (less : List Nat → List Nat → Bool) : Option (Bool × Option (List Nat)) :=
  match fuel with
  | 0 => none
  | fuel + 1 => do
    let nid ← id
    let node ← st.get? nid
    -- size_t elem_index;  (uninitialised, never assigned: the loop shadows it)
    let elemIndex : Option Nat := none
    -- void *stored;  (uninitialised)
    let stored ← containsScan less node.data elemSize elem 0 node.nKeys none
    -- if (less(elem, stored)) { ... return true; }
    let sOff ← stored
    let sVal ← readBytes node.data sOff elemSize
    if less elem sVal then
      some (true, if copyOut then some sVal else none)
    else
      match node.children with
      | some cs => do
        -- return set_tree_contains(node->children[elem_index], ...)
        let idx ← elemIndex
        let slot ← cs.get? idx
        set_tree_contains fuel st slot elem elemSize copyOut less
      | none => some (false, none)

/-- `set_contains`: descend from the root when there is one, otherwise the
set is empty and the result is false with `copy_out` untouched. -/
def set_contains (fuel : Nat) (st : Store) (s : SetS) (elem : List Nat)
    (copyOut : Bool) (less : List Nat → List Nat → Bool) :
    Option (Bool × Option (List Nat)) :=
  match s.root with
  | some r => set_tree_contains fuel st (some r) elem s.elemSize copyOut less
  | none => some (false, none)

/-! ### Insertion

`set_insert_in_node` first scans for `elem_index`, breaking at the first
stored key for which `less(stored, elem)` holds (so the test is against
keys *less than* `elem`, exactly as in the source), and dispatches on
`n_keys < max_keys` to the simple or the splitting case. -/

/-- The `elem_index` scan of `set_insert_in_node`: the first index `i` with
`less(data[i], elem)`, else `n_keys`.  `i` counts up, `remaining` counts
down from `n_keys`. -/
def insertScan (less : List Nat → List Nat → Bool) (data : List Nat)
    (elemSize : Nat) (elem : List Nat) : Nat → Nat → Option Nat
  | i, 0 => some i
  | i, remaining + 1 => do
    let sVal ← readBytes data (i * elemSize) elemSize
    if less sVal elem then some i
    else insertScan less data elemSize elem (i + 1) remaining

/-- `set_insert_in_node_simple`: increment `n_keys` first, then
`memmove` `(n_keys - elem_index)` elements (with the already incremented
`n_keys`) one element stride to the right, copy `elem` in at `elem_index`,
and, if the node has children, store `right_child` at child slot `n_keys`
(again the incremented value). -/
def set_insert_in_node_simple (st : Store) (id : Nat) (elem : List Nat)
    (elemSize : Nat) (elemIndex : Nat) (rightChild : Option Nat) :
    Option Store := do
  let node ← st.get? id
  let nKeys1 := node.nKeys + 1
  let elemAddr := elemIndex * elemSize
  let d1 ← memmoveBytes node.data (elemAddr + elemSize) elemAddr
      ((nKeys1 - elemIndex) * elemSize)
  let eb ← readBytes elem 0 elemSize
  let d2 ← writeBytes d1 elemAddr eb
  match node.children with
  | some cs =>
    if nKeys1 < cs.length then
      some (st.set id
        { node with data := d2, nKeys := nKeys1,
                    children := some (cs.set nKeys1 rightChild) })
    else none
  | none => some (st.set id { node with data := d2, nKeys := nKeys1 })

/-- Copy child-pointer slots `src.get? (srcOff + k)` for `k < count` into
`dst` starting at `dstOff`; `none` if either range leaves its array.  This
models the `memcpy(new_node->children, node->children + n_old, ...)` of the
split (whose byte count the source derives from `elem_size`; the slot count
`n_new + 1` is the pointer range that copy is meant to cover). -/
def copyChildSlots (dst src : List (Option Nat)) (dstOff srcOff count : Nat) :
    Option (List (Option Nat)) :=
  if srcOff + count ≤ src.length ∧ dstOff + count ≤ dst.length then
    some ((List.range count).foldl
      (fun acc k => acc.set (dstOff + k) ((src.get? (srcOff + k)).join)) dst)
  else none

/-- The left partition size of a split:
`size_t n_old = (node->n_keys - 1) / 2 + 1; // ceiling of max_keys / 2`. -/
def splitNOld (nKeys : Nat) : Nat := (nKeys - 1) / 2 + 1

/-- The right partition size of a split: `size_t n_new = node->n_keys - n_old`. -/
def splitNNew (nKeys : Nat) : Nat := nKeys - splitNOld nKeys

mutual

/-- `set_insert_in_node`: compute `elem_index` by the scan, then the simple
case when `n_keys < order - 1`, else the split. -/
def set_insert_in_node (fuel : Nat) (st : Store) (id : Nat) (elem : List Nat)
    (elemSize : Nat) (rightChild : Option Nat) (order : Nat)
    (less : List Nat → List Nat → Bool) : Option Store :=
  match fuel with
  | 0 => none
  | fuel + 1 => do
    let node ← st.get? id
    let elemIndex ← insertScan less node.data elemSize elem 0 node.nKeys
    let maxKeys := order - 1
    if node.nKeys < maxKeys then
      set_insert_in_node_simple st id elem elemSize elemIndex rightChild
    else
      set_insert_in_node_complex fuel st id elem elemSize elemIndex
        rightChild order less
termination_by structural fuel

/-- `set_insert_in_node_complex`: split a full node.

* `n_old = (n_keys - 1) / 2 + 1` keys stay in the (left) node,
  `n_new = n_keys - n_old` go to a newly allocated sibling initialised with
  `set_node_init(new_node, home, node->parent, n_new, false)` — note
  `is_leaf = false` even when the split node is a leaf, as in the source.
* Left insert (`elem_index <= n_old`): copy the right half out, then
  `memmove((void *)elem_addr + 1, ...)` — the destination is one **byte**
  (not one element) past `elem_addr`, as in the source — and copy `elem` in.
* Right insert: `insert_addr = new_node->data + (elem_index - n_old)` — the
  offset is **not** scaled by `elem_size`, as in the source — then the three
  copies around it.
* The `n_keys` of both nodes are updated, then the pivot is promoted: into the
  parent when there is one, else through the root path, which calls
  `set_node_init` on the *sibling* rather than the new root, copies the
  pivot into the sibling, and finally stores through `new_root->children`,
  a NULL pointer of the zero-initialised `new_root`. -/
def set_insert_in_node_complex (fuel : Nat) (st : Store) (id : Nat)
    (elem : List Nat) (elemSize : Nat) (elemIndex : Nat)
    (rightChild : Option Nat) (order : Nat)
    (less : List Nat → List Nat → Bool) : Option Store :=
  match fuel with
  | 0 => none
  | fuel + 1 => do
  let node ← st.get? id
  let nOld := splitNOld node.nKeys
  let nNew := splitNNew node.nKeys
  let pivotAddr := nOld * elemSize
  let elemAddr := elemIndex * elemSize
  let alloc1 := calloc_node st
  let newId := alloc1.2
  let st1 := set_node_init alloc1.1 newId order elemSize node.parentId nNew false
  let newNode ← st1.get? newId
  let bufs ←
    if elemIndex ≤ nOld then do
      let chunk ← readBytes node.data pivotAddr (nNew * elemSize)
      let nd1 ← writeBytes newNode.data 0 chunk
      let d1 ← memmoveBytes node.data (elemAddr + 1) elemAddr
          (pivotAddr - elemAddr)
      let eb ← readBytes elem 0 elemSize
      let d2 ← writeBytes d1 elemAddr eb
      some (d2, nd1)
    else do
      let insertOff := elemIndex - nOld
      let chunk1 ← readBytes node.data (pivotAddr + elemSize) insertOff
      let nd1 ← writeBytes newNode.data 0 chunk1
      let eb ← readBytes elem 0 elemSize
      let nd2 ← writeBytes nd1 insertOff eb
      let chunk2 ← readBytes node.data elemAddr
          ((node.nKeys - elemIndex) * elemSize)
      let nd3 ← writeBytes nd2 (insertOff + elemSize) chunk2
      some (node.data, nd3)
  let newChildren ←
    match node.children with
    | some cs => do
      let ncs ← newNode.children
      let copied ← copyChildSlots ncs cs 0 nOld (nNew + 1)
      some (some copied)
    | none => some newNode.children
  let st2 := (st1.set id { node with data := bufs.1, nKeys := nOld }).set newId
      { newNode with data := bufs.2, children := newChildren, nKeys := nNew }
  match node.parentId with
  | some pid => do
    let nodeAfter ← st2.get? id
    let pivotElem ← readBytes nodeAfter.data pivotAddr elemSize
    set_insert_in_node fuel st2 pid pivotElem elemSize (some newId) order less
  | none => do
    let alloc2 := calloc_node st2
    let rootId := alloc2.2
    -- set_node_init(new_node, node->home_set, NULL, 1, false):
    -- the source re-initialises the sibling, not the new root
    let st3 := set_node_init alloc2.1 newId order elemSize none 1 false
    let sib ← st3.get? newId
    let nodeAfter ← st3.get? id
    let pv ← readBytes nodeAfter.data pivotAddr elemSize
    let sd ← writeBytes sib.data 0 pv
    let st4 := st3.set newId { sib with data := sd }
    let root ← st4.get? rootId
    -- new_root->children[0] = node; new_root->children[1] = new_node;
    -- new_root came from calloc and was never initialised: children is NULL
    match root.children with
    | none => none
    | some cs => some (st4.set rootId
        { root with children := some ((cs.set 0 (some id)).set 1 (some newId)) })
termination_by structural fuel

end

/-! ### Descent (`set_tree_insert`) and `set_insert`

`set_tree_insert` performs the node-level insertion when the node is a leaf
— and then, with no `return` and no `else`, falls through into the descent
loop, which re-reads the node (its `n_keys` has just been incremented) and
indexes `node->children`, a NULL pointer on a leaf.  The descent loop
returns without recursing only when `less(elem, stored) && less(stored,
elem)` both hold — the test of the source for an equivalent key. -/

mutual

def set_tree_insert (fuel : Nat) (st : Store) (id : Option Nat)
    (elem : List Nat) (elemSize : Nat) (order : Nat)
    (less : List Nat → List Nat → Bool) : Option Store :=
  match fuel with
  | 0 => none
  | fuel + 1 => do
    let nid ← id
    let node ← st.get? nid
    -- if leaf, add to node (and then fall through: the source never returns here)
    let st1 ←
      match node.children with
      | none => set_insert_in_node fuel st nid elem elemSize none order less
      | some _ => some st
    -- uintptr_t data = node->data;  for (size_t key = 0; key < node->n_keys; ...)
    -- n_keys and data are re-read through the node pointer after the insertion
    let node1 ← st1.get? nid
    set_tree_insert_loop fuel st1 node1 elem elemSize order less 0 node1.nKeys
termination_by structural fuel

def set_tree_insert_loop (fuel : Nat) (st : Store) (node : BNode)
    (elem : List Nat) (elemSize : Nat) (order : Nat)
    (less : List Nat → List Nat → Bool) (key remaining : Nat) : Option Store :=
  match fuel with
  | 0 => none
  | fuel + 1 =>
    match remaining with
    | 0 => do
      -- elem greater than all stored keys: pass to the rightmost child
      let cs ← node.children
      let slot ← cs.get? node.nKeys
      set_tree_insert fuel st slot elem elemSize order less
    | remaining + 1 => do
      let stored ← readBytes node.data (key * elemSize) elemSize
      if less elem stored then
        -- do nothing if elem eqivalent to stored key (the test of the source)
        if less stored elem then some st
        else do
          let cs ← node.children
          let slot ← cs.get? key
          set_tree_insert fuel st slot elem elemSize order less
      else
        set_tree_insert_loop fuel st node elem elemSize order less (key + 1)
          remaining
termination_by structural fuel

end

/-- `set_insert`: on the first insertion allocate and initialise the root
(with `n_keys = 1`, a leaf) and copy `elem` into its first slot; otherwise
descend with `set_tree_insert`. -/
def set_insert (fuel : Nat) (st : Store) (s : SetS) (elem : List Nat)
    (less : List Nat → List Nat → Bool) : Option (Store × SetS) :=
  match s.root with
  | none => do
    let alloc1 := calloc_node st
    let rootId := alloc1.2
    let st1 := set_node_init alloc1.1 rootId s.order s.elemSize none 1 true
    let root ← st1.get? rootId
    let eb ← readBytes elem 0 s.elemSize
    let d ← writeBytes root.data 0 eb
    some (st1.set rootId { root with data := d }, { s with root := some rootId })
  | some r => do
    let st1 ← set_tree_insert fuel st (some r) elem s.elemSize s.order less
    some (st1, s)

/-- Run a sequence of insertions against a freshly initialised set
(`set_init` then `set_insert` for each element in order). -/
def set_build (fuel : Nat) (order elemSize : Nat)
    (less : List Nat → List Nat → Bool) (elems : List (List Nat)) :
    Option (Store × SetS) :=
  elems.foldlM (fun acc e => set_insert fuel acc.1 acc.2 e less)
    (([] : Store), set_init order elemSize)

/-! ### Traversal (`set_tree_map`, `set_map`)

`set_tree_map` applies the visitor to **all** keys of a node first and
only then recurses into the children (`child = 0 .. n_keys`); the result is
the sequence of element byte blocks passed to the visitor, in order.
`set_map` passes `s->root` down with no NULL check. -/

/-- The key loop of `set_tree_map`: the element byte blocks at key slots
`key, key+1, …` while `remaining` counts down from `n_keys`. -/
def set_tree_map_keys (data : List Nat) (elemSize : Nat) :
    Nat → Nat → Option (List (List Nat))
  | _, 0 => some []
  | key, remaining + 1 => do
    let stored ← readBytes data (key * elemSize) elemSize
    let rest ← set_tree_map_keys data elemSize (key + 1) remaining
    some (stored :: rest)

mutual

def set_tree_map (fuel : Nat) (st : Store) (id : Option Nat) (elemSize : Nat) :
    Option (List (List Nat)) :=
  match fuel with
  | 0 => none
  | fuel + 1 => do
    let nid ← id
    let node ← st.get? nid
    let keys ← set_tree_map_keys node.data elemSize 0 node.nKeys
    match node.children with
    | some _ => do
      let sub ← set_tree_map_children fuel st node.children elemSize 0
          (node.nKeys + 1)
      some (keys ++ sub)
    | none => some keys
termination_by structural fuel

def set_tree_map_children (fuel : Nat) (st : Store)
    (children : Option (List (Option Nat))) (elemSize : Nat)
    (child remaining : Nat) : Option (List (List Nat)) :=
  match fuel with
  | 0 => none
  | fuel + 1 =>
    match remaining with
    | 0 => some []
    | remaining + 1 => do
      let cs ← children
      let slot ← cs.get? child
      let sub ← set_tree_map fuel st slot elemSize
      let rest ← set_tree_map_children fuel st children elemSize (child + 1)
          remaining
      some (sub ++ rest)
termination_by structural fuel

end

/-- `set_map`: traverse from `s->root` (no NULL check in the source). -/
def set_map (fuel : Nat) (st : Store) (s : SetS) : Option (List (List Nat)) :=
  set_tree_map fuel st s.root s.elemSize

/-! ### Concrete fixtures

All concrete runs use one-byte elements (`elem_size = 1`), so an element is
a one-entry byte block `[v]`, with the strict comparator `byteLess`. -/

/-- A strict-order comparator on one-byte elements: `less([a], [b]) = a < b`. -/
def byteLess : List Nat → List Nat → Bool :=
  fun a b => decide (a.headD 0 < b.headD 0)

/-- A well-formed two-level tree for order 3, `elem_size` 1: node 0 is the
root with the single key 20 and children node 1 (leaf, key 10) and node 2
(leaf, key 30). -/
def demoStore : Store :=
  [⟨[20, 0], none, some [some 1, some 2, none], 1⟩,
   ⟨[10, 0], some 0, none, 1⟩,
   ⟨[30, 0], some 0, none, 1⟩]

/-- A well-formed internal node for order 5, `elem_size` 1: node 0 holds
keys 10 and 30 with children node 1 (key 5), node 2 (key 15) and node 3
(key 35); node 4 (key 25) stands ready as a right child to install. -/
def c4Store : Store :=
  [⟨[10, 30, 0, 0], none, some [some 1, some 2, some 3, none, none], 2⟩,
   ⟨[5, 0, 0, 0], some 0, none, 1⟩,
   ⟨[15, 0, 0, 0], some 0, none, 1⟩,
   ⟨[35, 0, 0, 0], some 0, none, 1⟩,
   ⟨[25, 0, 0, 0], some 0, none, 1⟩]

/-- A full root leaf for order 3, `elem_size` 1: keys 10 and 20, so the next
insertion must split the root. -/
def c5Store : Store := [⟨[10, 20], none, none, 2⟩]

/-! ### The completed-build invariant

Every insertion sequence that completes without undefined behaviour leaves a
heap holding at most the root node, a leaf with no parent: the creation of
the first root is the only allocation that ever completes.  Any split is
already undefined (the root path of `set_insert_in_node_complex` stores
through the NULL child array of the uninitialised new root, and a node with
a parent could only exist below a completed root split), and the descent
loop after a leaf insertion either hits the NULL child array or returns the
store unchanged.  These lemmas carry that invariant through `set_build` and
settle the non-root capacity bound of the specification. -/

def RootOnly (store : Store) (s : SetS) : Prop :=
  (s.root = none ∧ store = []) ∨
  (s.root = some 0 ∧ ∃ nd : BNode, store = [nd] ∧
    nd.children = none ∧ nd.parentId = none)

theorem complex_root_eq_none (fuel : Nat) (nd : BNode)
    (elem : List Nat) (elemSize elemIndex : Nat) (rightChild : Option Nat)
    (order : Nat) (less : List Nat → List Nat → Bool)
    (hp : nd.parentId = none) (hc : nd.children = none) :
    set_insert_in_node_complex fuel [nd] 0 elem elemSize elemIndex rightChild
      order less = none := by
  cases fuel with
  | zero => rfl
  | succ fuel =>
    unfold set_insert_in_node_complex
    simp only [Option.bind_eq_bind, List.get?_cons_zero, Option.some_bind,
      calloc_node, set_node_init, List.cons_append, List.nil_append,
      List.length_cons, List.length_nil, List.set_cons_zero, List.set_cons_succ,
      List.get?_cons_succ, hp, hc, Bool.false_eq_true, ite_false,
      Option.bind_eq_none]
    split <;> simp [Option.bind_eq_none]

theorem insert_in_node_rootonly (fuel : Nat) (nd : BNode) (elem : List Nat)
    (elemSize : Nat) (rightChild : Option Nat) (order : Nat)
    (less : List Nat → List Nat → Bool) (st2 : Store)
    (hp : nd.parentId = none) (hc : nd.children = none)
    (h : set_insert_in_node fuel [nd] 0 elem elemSize rightChild order less
      = some st2) :
    ∃ nd2 : BNode, st2 = [nd2] ∧ nd2.children = none ∧ nd2.parentId = none := by
  cases fuel with
  | zero => exact absurd h (by simp [set_insert_in_node])
  | succ fuel =>
    unfold set_insert_in_node at h
    simp only [Option.bind_eq_bind, List.get?_cons_zero, Option.some_bind] at h
    rw [Option.bind_eq_some] at h
    obtain ⟨eidx, hscan, h⟩ := h
    by_cases hlt : nd.nKeys < order - 1
    · rw [if_pos hlt] at h
      unfold set_insert_in_node_simple at h
      simp only [Option.bind_eq_bind, List.get?_cons_zero, Option.some_bind,
        hc, List.set_cons_zero] at h
      rw [Option.bind_eq_some] at h
      obtain ⟨d1, hd1, h⟩ := h
      rw [Option.bind_eq_some] at h
      obtain ⟨eb, heb, h⟩ := h
      rw [Option.bind_eq_some] at h
      obtain ⟨d2, hd2, h⟩ := h
      simp only [Option.some.injEq] at h
      exact ⟨_, h.symm, hc ▸ rfl, hp ▸ rfl⟩
    · rw [if_neg hlt] at h
      rw [complex_root_eq_none fuel nd elem elemSize eidx rightChild order
        less hp hc] at h
      exact absurd h (by simp)

theorem tree_insert_loop_rootonly (fuel : Nat) :
    ∀ (st : Store) (node : BNode) (elem : List Nat) (elemSize order : Nat)
      (less : List Nat → List Nat → Bool) (key remaining : Nat) (st2 : Store),
      node.children = none →
      set_tree_insert_loop fuel st node elem elemSize order less key remaining
        = some st2 →
      st2 = st := by
  induction fuel with
  | zero => intro st node elem elemSize order less key remaining st2 hc h
            exact absurd h (by simp [set_tree_insert_loop])
  | succ fuel ih =>
    intro st node elem elemSize order less key remaining st2 hc h
    unfold set_tree_insert_loop at h
    cases remaining with
    | zero =>
      simp only [hc, Option.bind_eq_bind, Option.none_bind] at h
      exact absurd h (by simp)
    | succ remaining =>
      simp only [Option.bind_eq_bind] at h
      rw [Option.bind_eq_some] at h
      obtain ⟨stored, hstored, h⟩ := h
      by_cases h1 : less elem stored = true
      · rw [if_pos h1] at h
        by_cases h2 : less stored elem = true
        · rw [if_pos h2] at h
          simp only [Option.some.injEq] at h
          exact h.symm
        · rw [if_neg h2] at h
          simp only [hc, Option.none_bind] at h
          exact absurd h (by simp)
      · rw [if_neg h1] at h
        exact ih st node elem elemSize order less (key + 1) remaining st2 hc h

theorem tree_insert_rootonly (fuel : Nat) (nd : BNode) (elem : List Nat)
    (elemSize order : Nat) (less : List Nat → List Nat → Bool) (st2 : Store)
    (hp : nd.parentId = none) (hc : nd.children = none)
    (h : set_tree_insert fuel [nd] (some 0) elem elemSize order less
      = some st2) :
    ∃ nd2 : BNode, st2 = [nd2] ∧ nd2.children = none ∧ nd2.parentId = none := by
  cases fuel with
  | zero => exact absurd h (by simp [set_tree_insert])
  | succ fuel =>
    unfold set_tree_insert at h
    simp only [Option.bind_eq_bind, Option.some_bind, List.get?_cons_zero,
      hc] at h
    rw [Option.bind_eq_some] at h
    obtain ⟨st1, hst1, h⟩ := h
    obtain ⟨nd1, rfl, hc1, hp1⟩ :=
      insert_in_node_rootonly fuel nd elem elemSize none order less st1 hp hc
        hst1
    simp only [List.get?_cons_zero, Option.some_bind] at h
    obtain rfl := tree_insert_loop_rootonly fuel [nd1] nd1 elem elemSize order
      less 0 nd1.nKeys st2 hc1 h
    exact ⟨nd1, rfl, hc1, hp1⟩

theorem set_insert_rootonly (fuel : Nat) (st : Store) (s : SetS)
    (elem : List Nat) (less : List Nat → List Nat → Bool)
    (out : Store × SetS) (hro : RootOnly st s)
    (h : set_insert fuel st s elem less = some out) :
    RootOnly out.1 out.2 := by
  rcases hro with ⟨hroot, rfl⟩ | ⟨hroot, nd, rfl, hc, hp⟩
  · unfold set_insert at h
    rw [hroot] at h
    simp only [calloc_node, set_node_init, List.nil_append, List.length_nil,
      List.set_cons_zero, List.get?_cons_zero, Option.bind_eq_bind,
      Option.some_bind, if_true] at h
    rw [Option.bind_eq_some] at h
    obtain ⟨eb, heb, h⟩ := h
    rw [Option.bind_eq_some] at h
    obtain ⟨d, hd, h⟩ := h
    simp only [List.set_cons_zero, Option.some.injEq] at h
    subst h
    exact Or.inr ⟨rfl, _, rfl, rfl, rfl⟩
  · unfold set_insert at h
    rw [hroot] at h
    simp only [Option.bind_eq_bind] at h
    rw [Option.bind_eq_some] at h
    obtain ⟨st1, hst1, h⟩ := h
    obtain ⟨nd2, rfl, hc2, hp2⟩ := tree_insert_rootonly fuel nd elem s.elemSize
      s.order less st1 hp hc hst1
    simp only [Option.some.injEq] at h
    subst h
    exact Or.inr ⟨hroot, nd2, rfl, hc2, hp2⟩

theorem set_build_fold_rootonly (elems : List (List Nat)) :
    ∀ (fuel : Nat) (less : List Nat → List Nat → Bool)
      (init out : Store × SetS), RootOnly init.1 init.2 →
      List.foldlM (fun acc e => set_insert fuel acc.1 acc.2 e less) init elems
        = some out →
      RootOnly out.1 out.2 := by
  induction elems with
  | nil =>
    intro fuel less init out hro h
    simp only [List.foldlM_nil, pure, Option.some.injEq] at h
    exact h ▸ hro
  | cons e es ih =>
    intro fuel less init out hro h
    rw [List.foldlM_cons] at h
    simp only [Option.bind_eq_bind] at h
    rw [Option.bind_eq_some] at h
    obtain ⟨mid, hmid, h⟩ := h
    exact ih fuel less mid out (set_insert_rootonly fuel init.1 init.2 e less
      mid hro hmid) h

theorem set_build_rootonly (fuel order elemSize : Nat)
    (less : List Nat → List Nat → Bool) (elems : List (List Nat))
    (out : Store × SetS) (h : set_build fuel order elemSize less elems
      = some out) : RootOnly out.1 out.2 :=
  set_build_fold_rootonly elems fuel less _ out (Or.inl ⟨rfl, rfl⟩) h

theorem rootonly_no_nonroot {store : Store} {s : SetS} (hro : RootOnly store s)
    (id : Nat) (nd : BNode) (hget : store.get? id = some nd)
    (hne : s.root ≠ some id) : False := by
  rcases hro with ⟨hroot, rfl⟩ | ⟨hroot, nd0, rfl, hc, hp⟩
  · simp at hget
  · cases id with
    | zero => exact hne hroot
    | succ n => simp [List.get?_cons_succ] at hget


/-! ## Claims -/

/-- C1: the claim says `map` visits the elements of any insert-built set in
strictly ascending order, one visit per element, by recursing child then key
at each node.  On the set built by the empty insertion sequence, `set_map`
dereferences the NULL root instead of making zero visits; and on a
well-formed two-level tree `set_tree_map` emits all keys of a node before
any child — the sequence [20, 10, 30] here — which is not the interleaved
order and not ascending. -/
theorem claim_C1_map_order :
    set_build 50 3 1 byteLess [] = some ([], set_init 3 1) ∧
    set_map 50 [] (set_init 3 1) = none ∧
    set_tree_map 50 demoStore (some 0) 1 = some [[20], [10], [30]] ∧
    byteLess [20] [10] = false := by
  exact ⟨by decide, by decide, by decide, by decide⟩

/-- C2: the claim says `contains` decides membership and copies the stored
element out on a hit.  On the one-element set built by inserting 10
(order 3), querying 10 — a stored, equivalent element — is undefined: the
scan of `set_tree_contains` reads the uninitialised local `stored` in its
first iteration, so no defined boolean is returned. -/
theorem claim_C2_contains_undefined :
    set_build 50 3 1 byteLess [[10]] =
      some ([⟨[10, 0], none, none, 1⟩], ⟨1, 3, some 0⟩) ∧
    set_contains 50 [⟨[10, 0], none, none, 1⟩] ⟨1, 3, some 0⟩ [10] true byteLess
      = none := by
  exact ⟨by decide, by decide⟩

/-- C3: the claim says inserting an element equivalent to a stored one is a
silent no-op that mutates nothing.  On the one-element set built by
inserting 10 (order 4), inserting 10 again first mutates the leaf — the
node-level insertion duplicates the key, giving key bytes `[10, 10]` — and
the enclosing `set_tree_insert` then falls into the descent loop and
dereferences the NULL child array of the leaf, so the whole insertion is
undefined rather than a no-op. -/
theorem claim_C3_duplicate_not_noop :
    set_build 50 4 1 byteLess [[10]] =
      some ([⟨[10, 0, 0], none, none, 1⟩], ⟨1, 4, some 0⟩) ∧
    set_insert_in_node 50 [⟨[10, 0, 0], none, none, 1⟩] 0 [10] 1 none 4 byteLess
      = some [⟨[10, 10, 0], none, none, 2⟩] ∧
    set_insert 50 [⟨[10, 0, 0], none, none, 1⟩] ⟨1, 4, some 0⟩ [10] byteLess
      = none := by
  exact ⟨by decide, by decide, by decide⟩

/-- C4: the claim says the simple node-level insertion shifts the trailing
children right by one slot and installs `right_child` immediately to the
right of the new key.  Inserting key 20 at target index 1 into the order-5
internal node with keys [10, 30] and children [1, 2, 3] and right child 4
yields child slots [1, 2, 3, 4, −] — the source stores `right_child` at
slot `n_keys` and never shifts the children — instead of the claimed
[1, 2, 4, 3, −].  Moreover, for a node holding `order − 2` keys (order 3,
one key here) the `memmove` of the simple case moves one element too many
and writes past the key allocation, so the insertion is undefined. -/
theorem claim_C4_simple_insert :
    set_insert_in_node_simple c4Store 0 [20] 1 1 (some 4) =
      some [⟨[10, 20, 30, 0], none,
             some [some 1, some 2, some 3, some 4, none], 3⟩,
            ⟨[5, 0, 0, 0], some 0, none, 1⟩,
            ⟨[15, 0, 0, 0], some 0, none, 1⟩,
            ⟨[35, 0, 0, 0], some 0, none, 1⟩,
            ⟨[25, 0, 0, 0], some 0, none, 1⟩] ∧
    ([some 1, some 2, some 3, some 4, none] : List (Option Nat)) ≠
      [some 1, some 2, some 4, some 3, none] ∧
    set_insert_in_node_simple [⟨[10, 0], none, none, 1⟩] 0 [20] 1 0 none = none
    := by
  exact ⟨by decide, by decide, by decide⟩

/-- C5: the claim says a full root splits into a new root holding the
median with the old root and the new sibling as reparented children, the
set root then designating the new root.  Splitting the full order-3 root
leaf [10, 20] by inserting 30 is undefined: the source initialises the new
*sibling* where it should initialise the new root, copies the median into
the sibling, and then stores through the children pointer of the
uninitialised new root, which is NULL; the set root is never updated. -/
theorem claim_C5_root_split_undefined :
    set_insert_in_node_complex 49 c5Store 0 [30] 1 0 none 3 byteLess = none ∧
    set_insert_in_node 50 c5Store 0 [30] 1 none 3 byteLess = none := by
  exact ⟨by decide, by decide⟩

/-- C6: the claim says every leaf sits at equal depth after any insertion
sequence (order ≥ 2).  No tree with more than one element can be built at
all: for orders 2, 3 and 4 alike, inserting 1 and then 2 is undefined
(order 2: out-of-bounds writes in the split; order 3: the simple-case
`memmove` writes past the key allocation; order 4: the descent falls
through after the leaf insertion and dereferences the NULL child array). -/
theorem claim_C6_balance :
    set_build 50 2 1 byteLess [[1], [2]] = none ∧
    set_build 50 3 1 byteLess [[1], [2]] = none ∧
    set_build 50 4 1 byteLess [[1], [2]] = none := by
  exact ⟨by decide, by decide, by decide⟩

/-- C7: the split sizes computed by `set_insert_in_node_complex` for a full
node (`n_keys = order − 1`) match the claim exactly: the left node keeps
`splitNOld (order − 1) = ⌈(order−1)/2⌉` keys (the ceiling is written
`(order − 1 + 1) / 2` in ℕ), the new sibling gets
`splitNNew (order − 1) = ⌈order/2⌉ − 1` keys (written `(order+1)/2 − 1`),
and both values lie within the claimed non-root bounds
`[⌈order/2⌉ − 1, order − 1]`.  Moreover, after any insertion sequence that
completes, every non-root node of the resulting heap is within those bounds
— vacuously so, because completed builds are root-only: no insertion that
splits a node ever completes (see `RootOnly`). -/
theorem claim_C7_capacity (order : Nat) (h2 : 2 ≤ order) :
    (splitNOld (order - 1) = (order - 1 + 1) / 2 ∧
     splitNNew (order - 1) = (order + 1) / 2 - 1 ∧
     (order + 1) / 2 - 1 ≤ splitNOld (order - 1) ∧
     splitNOld (order - 1) ≤ order - 1 ∧
     (order + 1) / 2 - 1 ≤ splitNNew (order - 1) ∧
     splitNNew (order - 1) ≤ order - 1) ∧
    (∀ (fuel elemSize : Nat) (less : List Nat → List Nat → Bool)
       (elems : List (List Nat)) (store : Store) (s : SetS),
       set_build fuel order elemSize less elems = some (store, s) →
       ∀ id nd, store.get? id = some nd → s.root ≠ some id →
         (order + 1) / 2 - 1 ≤ nd.nKeys ∧ nd.nKeys ≤ order - 1) := by
  constructor
  · simp only [splitNOld, splitNNew]
    omega
  · intro fuel elemSize less elems store s h id nd hget hne
    exact absurd (rootonly_no_nonroot
      (set_build_rootonly fuel order elemSize less elems (store, s) h)
      id nd hget hne) not_false

theorem claim_C7_capacity_witness :
    2 ≤ 3 ∧
    ((splitNOld (3 - 1) = (3 - 1 + 1) / 2 ∧
      splitNNew (3 - 1) = (3 + 1) / 2 - 1 ∧
      (3 + 1) / 2 - 1 ≤ splitNOld (3 - 1) ∧
      splitNOld (3 - 1) ≤ 3 - 1 ∧
      (3 + 1) / 2 - 1 ≤ splitNNew (3 - 1) ∧
      splitNNew (3 - 1) ≤ 3 - 1) ∧
     (∀ (fuel elemSize : Nat) (less : List Nat → List Nat → Bool)
        (elems : List (List Nat)) (store : Store) (s : SetS),
        set_build fuel 3 elemSize less elems = some (store, s) →
        ∀ id nd, store.get? id = some nd → s.root ≠ some id →
          (3 + 1) / 2 - 1 ≤ nd.nKeys ∧ nd.nKeys ≤ 3 - 1)) :=
  ⟨by decide, claim_C7_capacity 3 (by decide)⟩


/-- C8: the claim says the empty set answers false to every `contains` and
`map` makes zero visits.  The `contains` half holds — the NULL-root check
returns false with `copy_out` untouched — but `set_map` passes the NULL
root straight into `set_tree_map`, which dereferences it. -/
theorem claim_C8_empty_set :
    set_contains 50 [] (set_init 2 1) [7] true byteLess = some (false, none) ∧
    set_map 50 [] (set_init 2 1) = none := by
  exact ⟨by decide, by decide⟩

/-- C9: the claim says `free` runs to completion on every set, post-order,
never following a child slot of a leaf.  It is undefined on the empty set
(the NULL root is dereferenced), on the one-element set built by inserting
10 (the root is a leaf, and the loop indexes its NULL child array), and on
a well-formed two-level tree (each leaf child fails the same way). -/
theorem claim_C9_free_undefined :
    set_free 50 [] (set_init 3 1) = none ∧
    set_build 50 3 1 byteLess [[10]] =
      some ([⟨[10, 0], none, none, 1⟩], ⟨1, 3, some 0⟩) ∧
    set_free 50 [⟨[10, 0], none, none, 1⟩] ⟨1, 3, some 0⟩ = none ∧
    set_tree_free 50 demoStore (some 0) = none := by
  exact ⟨by decide, by decide, by decide, by decide⟩

/-- C10: the claim says `set_tree_insert` returns immediately after the
node-level insertion into a leaf, never touching the leaf child array.  On
the one-element set built by inserting 10 (order 4), inserting 20 performs
the node-level insertion successfully (the leaf then holds key bytes
[20, 10] — also misplaced by the inverted scan) and then falls through into
the descent loop, whose child-array access on the NULL `children` of the
leaf makes the whole call undefined. -/
theorem claim_C10_leaf_fallthrough :
    set_insert_in_node 50 [⟨[10, 0, 0], none, none, 1⟩] 0 [20] 1 none 4 byteLess
      = some [⟨[20, 10, 0], none, none, 2⟩] ∧
    set_tree_insert 50 [⟨[10, 0, 0], none, none, 1⟩] (some 0) [20] 1 4 byteLess
      = none := by
  exact ⟨by decide, by decide⟩

end TreeOfLife
